import Mathlib

/-!
Verification of the tiled-to-gba-export scripts.

The repository holds two map-export scripts for the Tiled editor:

* `src/tiled-to-gba-export.js` registers the `"gba"` (regular) map format:
  each tile layer is emitted in 32x32 screenblocks, with horizontal and
  vertical flip flags packed into bits 10 and 11 of each 16-bit entry.
* `src/unnamed/part_000` (`tiled-to-gba-export-affine.js`) registers the
  `"gba-affine"` format: each tile layer is emitted as one flat row-major
  array, valid only for 16x16, 32x32, 64x64 and 128x128 maps.

The definitions below are a shallow embedding of those scripts.  Strings are
modelled as Lean `String` (a list of Unicode scalar values; every character
the scripts emit is ASCII, where JavaScript UTF-16 code-unit slicing and
per-character operations agree with the code-point model).  JavaScript
numbers appearing here are integers throughout (tile ids, dimensions,
loop counters), modelled as `Int`/`Nat`; the `|=` coercion to 32-bit goes
through an explicit ToInt32 model.  The `write` functions return
`Except String (String × String)`: `.error msg` models the script returning
the error message before any file I/O, `.ok (header, source)` models the
exact text written to the `.h` and `.c` files.  File-system collaborators
(`FileInfo.completeBaseName`, `FileInfo.path`, `TextFile`) are external to
the repository; the embedding takes the complete base name as an input and
models the written contents, not the file system.
-/

namespace TiledToGBA

/-- A tile id as seen by the scripts: Tiled supplies a number, and the
scripts compare it against the string `"-1"` with JavaScript loose
equality, so both shapes are modelled. -/
inductive TileIdVal where
  | num (n : Int)
  | str (s : String)
deriving DecidableEq

/-- A cell of a tile layer: `cellAt(x, y)` in the scripts. -/
structure Cell where
  tileId : TileIdVal
  flippedHorizontally : Bool
  flippedVertically : Bool

/-- A layer of the map: name, dimensions, kind flag and cell grid. -/
structure Layer where
  name : String
  width : Nat
  height : Nat
  isTileLayer : Bool
  cellAt : Nat → Nat → Cell

/-- The map object handed to `write`: dimensions and ordered layers
(`layerCount` and `layerAt` in the scripts). -/
structure GBAMap where
  width : Nat
  height : Nat
  layers : List Layer

/-- JavaScript loose equality `tileId == "-1"`: a number compares equal to
the string after `ToNumber("-1") = -1`; a string compares by string
equality. -/
def jsEqNegOne : TileIdVal → Bool
  | .num n => n == -1
  | .str s => s == "-1"

/-- The numeric value of a tile id, as the scripts use it arithmetically.
For a number it is the number itself; for a string this models JavaScript
`ToNumber` on the decimal-integer strings that can occur here (`ToInt32`
maps a non-numeric string through `NaN` to `0`). -/
def tileIdToNumber : TileIdVal → Int
  | .num n => n
  | .str s => (s.toInt?).getD 0

/-- JavaScript ToInt32: reduce modulo 2^32 into the signed 32-bit range. -/
def jsToInt32 (n : Int) : Int :=
  if n % 4294967296 < 2147483648 then n % 4294967296 else n % 4294967296 - 4294967296

/-- JavaScript bitwise or `a | b`: both operands through ToInt32, or-ed as
32-bit words, reinterpreted as signed. -/
def jsBitOr (a b : Int) : Int :=
  jsToInt32 (Int.ofNat (((jsToInt32 a) % 4294967296).toNat ||| ((jsToInt32 b) % 4294967296).toNat))

/-- The flip-bit packing of the regular script (lines 127-134):
`currentTileID |= (1 << 10)` when flipped horizontally, then
`currentTileID |= (1 << 11)` when flipped vertically. -/
def packTileId (t : Int) (fh fv : Bool) : Int :=
  let t1 := if fh then jsBitOr t 1024 else t
  if fv then jsBitOr t1 2048 else t1

/-- The numeric value the regular script passes to `decimalToHex` for a
non-blank cell. -/
def cellValue (c : Cell) : Int :=
  packTileId (tileIdToNumber c.tileId) c.flippedHorizontally c.flippedVertically

/-- Left-pad a character list to a minimum length, as JavaScript
`String.prototype.padStart`. -/
def padStartChars (cs : List Char) (len : Nat) (c : Char) : List Char :=
  List.replicate (len - cs.length) c ++ cs

/-- JavaScript `n.toString(16).toUpperCase()` for an integer. -/
def jsNumToHexChars (n : Int) : List Char :=
  if n < 0 then '-' :: (Nat.toDigits 16 n.natAbs).map Char.toUpper
  else (Nat.toDigits 16 n.toNat).map Char.toUpper

/-- `decimalToHex` of both scripts:
`"0x" + p_decimal.toString(16).toUpperCase().padStart(p_padding, "0")`. -/
def decimalToHex (n : Int) (padding : Nat) : String :=
  "0x" ++ String.mk (padStartChars (jsNumToHexChars n) padding '0')

/-- Whether a character is kept by the sanitizing regex class
`[a-zA-Z0-9-_]` of both scripts. -/
def isAllowedIdentChar (c : Char) : Bool :=
  ('a' ≤ c && c ≤ 'z') || ('A' ≤ c && c ≤ 'Z') || ('0' ≤ c && c ≤ '9') || c == '-' || c == '_'

/-- One character of the sanitizer: characters outside the class become
an underscore. -/
def sanitizeChar (c : Char) : Char :=
  if isAllowedIdentChar c then c else '_'

/-- The identifier sanitizer `.replace(/[^a-zA-Z0-9-_]/g, "_")` applied to
file base names and layer names in both scripts. -/
def sanitize (s : String) : String :=
  String.mk (s.data.map sanitizeChar)

/-- JavaScript `s.toUpperCase()` on the ASCII strings used here:
per-character uppercasing. -/
def toUpperAscii (s : String) : String :=
  String.mk (s.data.map Char.toUpper)

/-- Character-counted right truncation: JavaScript `s.slice(0, -n)`,
that is, all but the last `n` characters (all emitted characters are
ASCII, so code units and characters agree).  Phrased through `reverse`
and `drop`, which is equal to `take (length - n)`. -/
def strDropRight (s : String) (n : Nat) : String :=
  String.mk ((s.data.reverse.drop n).reverse)

/-- Concatenation `f 0 ++ f 1 ++ ... ++ f (n-1)`, the string accumulated by
a loop `for (i = 0; i < n; ++i) s += f(i)` (append is associative, so the
grouping is immaterial). -/
def strConcatRangeAux (f : Nat → String) : Nat → Nat → String
  | _, 0 => ""
  | i, n + 1 => f i ++ strConcatRangeAux f (i + 1) n

/-- Concatenation of `f 0, ..., f (n-1)` in order. -/
def strConcatRange (f : Nat → String) (n : Nat) : String :=
  strConcatRangeAux f 0 n

/-- One emitted entry of the regular script (lines 124-137): `"0x0000, "`
for the blank sentinel, otherwise the hex form of the flip-packed id
followed by `", "`. -/
def cellEntryString (c : Cell) : String :=
  if jsEqNegOne c.tileId then "0x0000, "
  else decimalToHex (cellValue c) 4 ++ ", "

/-- One emitted row of a screenblock (regular script lines 113-141):
four-space indent, 32 entries, newline. -/
def screenblockRowString (l : Layer) (j k y : Nat) : String :=
  "    " ++ strConcatRange (fun x => cellEntryString (l.cellAt (x + 32 * k) (y + 32 * j))) 32 ++ "\n"

/-- One emitted screenblock (regular script lines 110-143): the
`// Screeblock <id>` comment, 32 rows, a blank separator line. -/
def screenblockString (l : Layer) (sb j k : Nat) : String :=
  "    // Screeblock " ++ toString sb ++ "\n"
    ++ strConcatRange (fun y => screenblockRowString l j k y) 32 ++ "\n"

/-- The array body of one tile layer in the regular script (lines 107-146):
screenblocks in block-row-major order over the
`(height/32) x (width/32)` grid; `screenBlockID` increments once per block
in that same order, hence equals `j * (width/32) + k`. -/
def regularLayerBody (l : Layer) : String :=
  let cX := l.width / 32
  strConcatRange (fun j => strConcatRange (fun k => screenblockString l (j * cX + k) j k) cX)
    (l.height / 32)

/-- The array-definition opener the regular script appends for every layer
(lines 100-101). -/
def regularArrayOpenString (len : Nat) (l : Layer) : String :=
  "const unsigned short " ++ sanitize l.name ++ "[" ++ toString len
    ++ "] __attribute__((aligned(4))) =\n" ++ "\x7b\n"

/-- One iteration of the regular script's layer loop on the source buffer
(lines 92-150): append the array opener, append the screenblock body when
the layer is a tile layer, then unconditionally `slice(0, -3)` and close
with `"\n};\n\n"`. -/
def regularLayerStep (len : Nat) (acc : String) (l : Layer) : String :=
  let s1 := acc ++ regularArrayOpenString len l
  let s2 := if l.isTileLayer then s1 ++ regularLayerBody l else s1
  strDropRight s2 3 ++ "\n\x7d;\n\n"

/-- The `extern` declaration the regular script appends to the header for
every layer (line 98). -/
def regularHeaderLayerLine (len : Nat) (l : Layer) : String :=
  "extern const unsigned short " ++ sanitize l.name ++ "[" ++ toString len ++ "];\n"

/-- The `write` function of the regular (`"gba"`) format, lines 62-169:
size gate, header and source accumulation, final `slice(0, -1)` on the
source.  `completeBaseName` is the externally supplied
`FileInfo.completeBaseName(p_fileName)`.  The single layer loop of the
script touches the header and source buffers independently, so it is
rendered as one fold per buffer. -/
def regularWrite (m : GBAMap) (completeBaseName : String) : Except String (String × String) :=
  if m.width % 32 != 0 || m.height % 32 != 0 then
    Except.error "Export failed: Invalid map size! Map width and height must be a multiple of 32."
  else
    let fileBaseName := sanitize completeBaseName
    let tilemapLength := m.width * m.height
    let headerStart :=
      "#ifndef _" ++ toUpperAscii fileBaseName ++ "_H_\n"
        ++ "#define _" ++ toUpperAscii fileBaseName ++ "_H_\n\n"
        ++ "#define " ++ toUpperAscii fileBaseName ++ "_WIDTH " ++ toString m.width ++ "\n"
        ++ "#define " ++ toUpperAscii fileBaseName ++ "_HEIGHT " ++ toString m.height ++ "\n"
        ++ "#define " ++ toUpperAscii fileBaseName ++ "_LENGTH " ++ toString tilemapLength ++ "\n\n"
        ++ "#ifdef __cplusplus\nextern \"C\" \x7b\n#endif\n\n"
    let sourceStart := "#include \"" ++ fileBaseName ++ ".h\"\n\n"
    let header := m.layers.foldl (fun h l => h ++ regularHeaderLayerLine tilemapLength l) headerStart
    let source := m.layers.foldl (fun s l => regularLayerStep tilemapLength s l) sourceStart
    Except.ok
      (header ++ "\n#ifdef __cplusplus\n\x7d\n#endif\n" ++ "\n#endif\n",
       strDropRight source 1)

/-- The size gate of the affine script (lines 52-57). -/
def affineSizeValid (w h : Nat) : Bool :=
  (w == 16 && h == 16) || (w == 32 && h == 32) || (w == 64 && h == 64) || (w == 128 && h == 128)

/-- One emitted entry of the affine script (lines 94-101): `"0x0000, "`
for the blank sentinel, otherwise the raw tile id in hex followed by
`", "` (no flip bits in affine mode). -/
def affineCellEntryString (c : Cell) : String :=
  if jsEqNegOne c.tileId then "0x0000, "
  else decimalToHex (tileIdToNumber c.tileId) 4 ++ ", "

/-- One emitted row of the affine script (lines 89-105): indent, `width`
entries across the map width, newline. -/
def affineRowString (mW : Nat) (l : Layer) (y : Nat) : String :=
  "    " ++ strConcatRange (fun x => affineCellEntryString (l.cellAt x y)) mW ++ "\n"

/-- One iteration of the affine script's layer loop on the source buffer
(lines 77-110): append the array opener, and only when the layer is a
tile layer append the rows and then `slice(0, -3)` and close — the
strip-and-close sits inside the `isTileLayer` branch. -/
def affineLayerStep (mW mH len : Nat) (acc : String) (l : Layer) : String :=
  let s1 := acc ++ "const unsigned short " ++ sanitize l.name ++ "[" ++ toString len
    ++ "] __attribute__((aligned(4))) =\n" ++ "\x7b\n"
  if l.isTileLayer then
    strDropRight (s1 ++ strConcatRange (fun y => affineRowString mW l y) mH) 3 ++ "\n\x7d;\n\n"
  else s1

/-- The `extern` declaration of the affine script (line 83). -/
def affineHeaderLayerLine (len : Nat) (l : Layer) : String :=
  "extern const unsigned short " ++ sanitize l.name ++ "[" ++ toString len ++ "];\n"

/-- The `write` function of the affine (`"gba-affine"`) format,
lines 48-131. -/
def affineWrite (m : GBAMap) (completeBaseName : String) : Except String (String × String) :=
  if !(affineSizeValid m.width m.height) then
    Except.error "Invalid map size! Map must be 16x16, 32x32, 64x64 or 128x128 in size."
  else
    let fileBaseName := sanitize completeBaseName
    let tilemapLength := m.width * m.height
    let headerStart :=
      "#ifndef _" ++ toUpperAscii fileBaseName ++ "_H_\n"
        ++ "#define _" ++ toUpperAscii fileBaseName ++ "_H_\n\n"
        ++ "#define " ++ toUpperAscii fileBaseName ++ "_WIDTH  (" ++ toString m.width ++ ")\n"
        ++ "#define " ++ toUpperAscii fileBaseName ++ "_HEIGHT (" ++ toString m.height ++ ")\n"
        ++ "#define " ++ toUpperAscii fileBaseName ++ "_LENGTH (" ++ toString tilemapLength ++ ")\n\n"
        ++ "#ifdef __cplusplus\nextern \"C\" \x7b\n#endif\n\n"
    let sourceStart := "#include \"" ++ fileBaseName ++ ".h\"\n\n"
    let header := m.layers.foldl (fun h l => h ++ affineHeaderLayerLine tilemapLength l) headerStart
    let source := m.layers.foldl (fun s l => affineLayerStep m.width m.height tilemapLength s l)
      sourceStart
    Except.ok
      (header ++ "\n#ifdef __cplusplus\n\x7d\n#endif\n" ++ "\n#endif\n",
       strDropRight source 1)

/-- Concatenation of the lists `f 0, ..., f (n-1)` in order (the list
counterpart of `strConcatRange`). -/
def flatRange {α : Type} (f : Nat → List α) : Nat → List α
  | 0 => []
  | n + 1 => flatRange f n ++ f n

/-- The per-cell entries emitted by the regular script's screenblock loops
for one layer, in emission order: block row `j`, block column `k`, local
row `y`, local column `x`, one entry per cell. -/
def regularLayerEntries (l : Layer) : List String :=
  let cX := l.width / 32
  flatRange (fun j =>
    flatRange (fun k =>
      flatRange (fun y =>
        flatRange (fun x => [cellEntryString (l.cellAt (x + 32 * k) (y + 32 * j))]) 32) 32) cX)
    (l.height / 32)

/-- Whether `needle` occurs at the head of `hay`. -/
def startsWithL : List Char → List Char → Bool
  | _, [] => true
  | [], _ :: _ => false
  | c :: cs, d :: ds => c == d && startsWithL cs ds

/-- Whether `needle` occurs anywhere in `hay`. -/
def hasSubAux : List Char → List Char → Bool
  | [], needle => needle.isEmpty
  | c :: cs, needle => startsWithL (c :: cs) needle || hasSubAux cs needle

/-- Substring test on strings. -/
def hasSubstr (hay needle : String) : Bool :=
  hasSubAux hay.data needle.data

/-- Whether an `Except` result is a success. -/
def exceptIsOk : Except String (String × String) → Bool
  | .ok _ => true
  | .error _ => false

/-- The header text of a successful export (empty on error). -/
def exceptHdr : Except String (String × String) → String
  | .ok p => p.1
  | .error _ => ""

/-- The source text of a successful export (empty on error). -/
def exceptSrc : Except String (String × String) → String
  | .ok p => p.2
  | .error _ => ""

/-- The value of one hexadecimal digit, if the character is one. -/
def hexVal (c : Char) : Option Nat :=
  if '0' ≤ c && c ≤ '9' then some (c.toNat - 48)
  else if 'A' ≤ c && c ≤ 'F' then some (c.toNat - 55)
  else if 'a' ≤ c && c ≤ 'f' then some (c.toNat - 87)
  else none

/-- Read a hexadecimal number from the head of a character list, stopping
at the first non-digit. -/
def readHexNum : List Char → Nat → Nat
  | [], acc => acc
  | c :: cs, acc =>
    match hexVal c with
    | some v => readHexNum cs (acc * 16 + v)
    | none => acc

/-- Decode the `0x`-prefixed hex value contained in one comma-separated
token, if any: scan to the first `0x` and read the digits after it. -/
def decodeTok : List Char → Option Nat
  | [] => none
  | '0' :: 'x' :: rest => some (readHexNum rest 0)
  | _ :: rest => decodeTok rest

/-- Split a character list on commas (accumulator form). -/
def splitCommaAux : List Char → List Char → List (List Char) → List (List Char)
  | [], cur, acc => (cur.reverse :: acc).reverse
  | c :: cs, cur, acc =>
    if c == ',' then splitCommaAux cs [] (cur.reverse :: acc)
    else splitCommaAux cs (c :: cur) acc

/-- Split a character list on commas. -/
def splitComma (cs : List Char) : List (List Char) :=
  splitCommaAux cs [] []

/-- The characters before the first closing brace (accumulator form). -/
def takeToCloseAux : List Char → List Char → List Char
  | [], acc => acc.reverse
  | c :: cs, acc => if c == '\x7d' then acc.reverse else takeToCloseAux cs (c :: acc)

/-- The characters of the array initializer body: everything strictly
between the first opening brace and the next closing brace. -/
def arrayBodyChars (cs : List Char) : List Char :=
  takeToCloseAux ((cs.dropWhile (fun c => c != '\x7b')).drop 1) []

/-- Decode every token that carries a `0x`-prefixed hex value, in order
(accumulator form). -/
def decodeToksAux : List (List Char) → List Nat → List Nat
  | [], acc => acc.reverse
  | t :: ts, acc =>
    match decodeTok t with
    | some v => decodeToksAux ts (v :: acc)
    | none => decodeToksAux ts acc

/-- Parse a generated source file back into tile values: take the array
body, split it on commas, and decode each token that carries a
`0x`-prefixed hex value. -/
def parseBackNats (s : String) : List Nat :=
  decodeToksAux (splitComma (arrayBodyChars s.data)) []

/-- Boolean equality of lists of naturals (iterative form, so that large
concrete instances evaluate without deep recursion). -/
def natListEq : List Nat → List Nat → Bool
  | [], [] => true
  | a :: as, b :: bs => a == b && natListEq as bs
  | _, _ => false

/-- Most-significant-first hexadecimal digits of a natural number, the
reference form used to reason about `Nat.toDigits 16`. -/
def hexDigitsM (n : Nat) : List Char :=
  if n / 16 = 0 then [Nat.digitChar (n % 16)]
  else hexDigitsM (n / 16) ++ [Nat.digitChar (n % 16)]
termination_by n
decreasing_by omega

/-- The uppercase hexadecimal digits of a number. -/
def upHexDigits (v : Nat) : List Char :=
  (hexDigitsM v).map Char.toUpper

/-- The digits part of an emitted entry: uppercase hex, zero-padded to 4. -/
def padDigits (v : Nat) : List Char :=
  padStartChars (upHexDigits v) 4 '0'

/-- The characters of an emitted entry value: `0x` then padded digits. -/
def entryChars (v : Nat) : List Char :=
  '0' :: 'x' :: padDigits v

/-- The sixteen uppercase hexadecimal digit characters. -/
def hexDigitSet : List Char :=
  "0123456789ABCDEF".data

/-- The filler between two entries on the same row: the space left from
the previous entry's `", "`. -/
def wSpc : List Char := [' ']

/-- The filler between the last entry of a row and the first of the next:
space, newline, four-space indent. -/
def wRow : List Char := " \n    ".data

/-- The filler before the very first entry of the body: the newline after
the opening brace, the screenblock comment line, the first row indent. -/
def wPre : List Char := "\n    // Screeblock 0\n    ".data

/-- The body text as a sequence of chunks: each chunk is filler, an entry
value, and the comma that terminates its token. -/
def chunksText : List (List Char × Nat) → List Char
  | [] => []
  | (w, v) :: rest => w ++ entryChars v ++ ',' :: chunksText rest

/-- The comma-separated tokens arising from a chunk sequence. -/
def tokensOf (L : List (List Char × Nat)) : List (List Char) :=
  L.map (fun p => p.1 ++ entryChars p.2)

/-- Concatenation of `g 0, ..., g (n-1)`, recursing by precomposition so
that peeling the front element is definitional. -/
def catN {α : Type} (g : Nat → List α) : Nat → List α
  | 0 => []
  | n + 1 => g 0 ++ catN (fun i => g (i + 1)) n

/-- The chunks of one non-initial row of the 32x32 scenario: a row-break
token then 31 same-row tokens, with values `b, b+1, ..., b+31`. -/
def rowChunks (b : Nat) : List (List Char × Nat) :=
  (wRow, b) :: catN (fun x => [(wSpc, b + 1 + x)]) 31

/-- The full chunk sequence of the 32x32 sequential scenario: the first
row opens with the comment-carrying filler, then 31 further rows. -/
def seqChunksL : List (List Char × Nat) :=
  ((wPre, 0) :: catN (fun x => [(wSpc, 1 + x)]) 31)
    ++ catN (fun y => rowChunks (32 * (1 + y))) 31

/-- A 32x32 tile layer whose tile ids are 0..1023 in row-major order,
without flips. -/
def seqLayer32 : Layer :=
  ⟨"layer0", 32, 32, true, fun x y => ⟨.num (Int.ofNat (y * 32 + x)), false, false⟩⟩

/-- The single-layer 32x32 map of the round-trip scenario. -/
def seqMap32 : GBAMap := ⟨32, 32, [seqLayer32]⟩

/-- A 16x16 non-tile (object) layer. -/
def objLayer16 : Layer :=
  ⟨"Objects", 16, 16, false, fun _ _ => ⟨.num 0, false, false⟩⟩

/-- A 16x16 map holding only a non-tile layer. -/
def objMap16 : GBAMap := ⟨16, 16, [objLayer16]⟩

/-- A 30x30 map: invalid in both modes. -/
def badMap30 : GBAMap := ⟨30, 30, []⟩

/-- A 33x32 map: invalid in regular mode. -/
def badMap33 : GBAMap := ⟨33, 32, []⟩

/-! Helper lemmas. -/

/-- Sanitizing an already sanitized character changes nothing. -/
theorem sanitizeChar_idem (c : Char) : sanitizeChar (sanitizeChar c) = sanitizeChar c := by
  unfold sanitizeChar
  by_cases h : isAllowedIdentChar c = true
  · simp [h]
  · simp [h]

/-- The reverse-and-drop form of `strDropRight` is take-all-but-n. -/
theorem strDropRight_eq_take (s : String) (n : Nat) :
    strDropRight s n = String.mk (s.data.take (s.data.length - n)) := by
  unfold strDropRight
  congr 1
  rw [List.reverse_drop]
  simp

/-- Dropping from the right distributes over append when the drop stays
inside the right part. -/
theorem strDropRight_append (a b : String) (n : Nat) (h : n ≤ b.data.length) :
    strDropRight (a ++ b) n = a ++ strDropRight b n := by
  rw [strDropRight_eq_take, strDropRight_eq_take]
  cases a with
  | mk la =>
    cases b with
    | mk lb =>
      show String.mk ((la ++ lb).take ((la ++ lb).length - n))
        = String.mk (la ++ lb.take (lb.length - n))
      congr 1
      rw [List.length_append, List.take_append_eq_append_take]
      have h' : n ≤ lb.length := h
      have h1 : la.length ≤ la.length + lb.length - n := by omega
      have h2 : la.length + lb.length - n - la.length = lb.length - n := by omega
      rw [List.take_of_length_le h1, h2]

/-! C3: blank-tile encoding in both modes. -/

/-- C3: in both export modes, a cell whose tile id is the blank sentinel
(-1, as the integer -1 or the string "-1") is emitted as the literal
0x0000, whatever the flip flags are. -/
theorem blank_tile_encoding (fh fv : Bool) :
    cellEntryString ⟨.num (-1), fh, fv⟩ = "0x0000, " ∧
    cellEntryString ⟨.str "-1", fh, fv⟩ = "0x0000, " ∧
    affineCellEntryString ⟨.num (-1), fh, fv⟩ = "0x0000, " ∧
    affineCellEntryString ⟨.str "-1", fh, fv⟩ = "0x0000, " := by
  cases fh <;> cases fv <;> exact ⟨rfl, rfl, rfl, rfl⟩

/-! C9: the identifier sanitizer. -/

/-- C9: the sanitizer replaces every character outside `[A-Za-z0-9_-]` with
an underscore and keeps the rest, is total and deterministic (it is a
function), maps "My Layer #1" to "My_Layer__1", and is idempotent. -/
theorem sanitize_contract (s : String) :
    sanitize s = String.mk (s.data.map (fun c => if isAllowedIdentChar c then c else '_')) ∧
    sanitize "My Layer #1" = "My_Layer__1" ∧
    sanitize (sanitize s) = sanitize s := by
  refine ⟨rfl, by decide, ?_⟩
  unfold sanitize
  show String.mk ((s.data.map sanitizeChar).map sanitizeChar) = String.mk (s.data.map sanitizeChar)
  congr 1
  rw [List.map_map]
  exact List.map_congr_left (fun c _ => sanitizeChar_idem c)

/-! C10: determinism of both exports. -/

/-- C10: the exported header and source strings are pure functions of the
map model and the target base name: equal inputs give byte-identical
outputs in both modes. -/
theorem export_deterministic (m m' : GBAMap) (f f' : String) (hm : m = m') (hf : f = f') :
    regularWrite m f = regularWrite m' f' ∧ affineWrite m f = affineWrite m' f' := by
  subst hm
  subst hf
  exact ⟨rfl, rfl⟩

/-- Witness for C10 at a concrete map and base name. -/
theorem export_deterministic_witness :
    regularWrite seqMap32 "map" = regularWrite seqMap32 "map" ∧
    affineWrite seqMap32 "map" = affineWrite seqMap32 "map" :=
  export_deterministic seqMap32 seqMap32 "map" "map" rfl rfl

/-! C4: the affine size gate. -/

/-- C4: affine export proceeds exactly for the sizes 16x16, 32x32, 64x64
and 128x128; any other size yields the error string (containing "Map must
be 16x16, 32x32, 64x64 or 128x128 in size.") before anything is produced,
modelled by the `.error` result carrying no output text. -/
theorem affine_size_gate (m : GBAMap) (fb : String) :
    (exceptIsOk (affineWrite m fb) = true ↔
      ((m.width = 16 ∧ m.height = 16) ∨ (m.width = 32 ∧ m.height = 32) ∨
        (m.width = 64 ∧ m.height = 64) ∨ (m.width = 128 ∧ m.height = 128))) ∧
    (exceptIsOk (affineWrite m fb) = false →
      affineWrite m fb =
        Except.error "Invalid map size! Map must be 16x16, 32x32, 64x64 or 128x128 in size.") ∧
    hasSubstr "Invalid map size! Map must be 16x16, 32x32, 64x64 or 128x128 in size."
      "Map must be 16x16, 32x32, 64x64 or 128x128 in size." = true := by
  refine ⟨?_, ?_, by decide⟩ <;>
    unfold affineWrite <;>
    cases hv : affineSizeValid m.width m.height <;>
    simp only [hv, Bool.not_false, Bool.not_true, if_true, if_false, exceptIsOk] <;>
    simp [affineSizeValid] at hv ⊢ <;>
    omega

/-- Witness for C4 at the invalid 30x30 map. -/
theorem affine_size_gate_witness :
    affineWrite badMap30 "map" =
      Except.error "Invalid map size! Map must be 16x16, 32x32, 64x64 or 128x128 in size." :=
  (affine_size_gate badMap30 "map").2.1 (by decide)

/-! C5: the regular size gate. -/

/-- C5: for maps with positive dimensions (the data model supplies
positive integers), regular export proceeds exactly when both dimensions
are multiples of 32; otherwise it yields the error string (containing
"Map width and height must be a multiple of 32.") and produces nothing,
modelled by the `.error` result carrying no output text. -/
theorem regular_size_gate (m : GBAMap) (fb : String)
    (hw : 0 < m.width) (hh : 0 < m.height) :
    (exceptIsOk (regularWrite m fb) = true ↔
      (m.width % 32 = 0 ∧ m.height % 32 = 0 ∧ 0 < m.width ∧ 0 < m.height)) ∧
    (exceptIsOk (regularWrite m fb) = false →
      regularWrite m fb =
        Except.error
          "Export failed: Invalid map size! Map width and height must be a multiple of 32.") ∧
    hasSubstr "Export failed: Invalid map size! Map width and height must be a multiple of 32."
      "Map width and height must be a multiple of 32." = true := by
  refine ⟨?_, ?_, by decide⟩ <;>
    unfold regularWrite <;>
    cases hv : (m.width % 32 != 0 || m.height % 32 != 0) <;>
    simp only [hv, if_true, if_false, exceptIsOk] <;>
    simp at hv ⊢ <;>
    omega

/-- Witness for C5 at the invalid 33x32 map. -/
theorem regular_size_gate_witness :
    regularWrite badMap33 "map" =
      Except.error
        "Export failed: Invalid map size! Map width and height must be a multiple of 32." :=
  (regular_size_gate badMap33 "map" (by decide) (by decide)).2.1 (by decide)

/-! C6 (corrected): affine non-tile layers leave the initializer open. -/

/-- Counterexample to C6 as stated: on a 16x16 map whose only layer is
not a tile layer, the affine source file contains the layer's array
definition but no closing brace at all — in particular no "};" — so the
initializer body is not syntactically closed. -/
theorem affine_nontile_counterexample :
    hasSubstr (exceptSrc (affineWrite objMap16 "map"))
      "const unsigned short Objects[256] __attribute__((aligned(4))) =" = true ∧
    hasSubstr (exceptSrc (affineWrite objMap16 "map")) "\x7d;" = false := by
  exact ⟨by decide, by decide⟩

/-- C6 as amended: in affine mode a non-tile layer still gets its extern
declaration in the header, and the source gets the array definition with
its opening brace, but the strip-and-close step sits inside the
`isTileLayer` branch, so the initializer is never closed for that layer. -/
theorem affine_nontile_unclosed (mW mH len : Nat) (acc : String) (l : Layer)
    (h : l.isTileLayer = false) :
    affineLayerStep mW mH len acc l =
      acc ++ "const unsigned short " ++ sanitize l.name ++ "[" ++ toString len
        ++ "] __attribute__((aligned(4))) =\n" ++ "\x7b\n" ∧
    hasSubstr (exceptHdr (affineWrite objMap16 "map"))
      "extern const unsigned short Objects[256];" = true ∧
    hasSubstr (exceptSrc (affineWrite objMap16 "map")) "\x7d" = false := by
  refine ⟨?_, by decide, by decide⟩
  unfold affineLayerStep
  rw [h]
  simp

/-- Witness for C6's amended theorem at the concrete non-tile layer. -/
theorem affine_nontile_unclosed_witness :
    affineLayerStep 16 16 256 "acc" objLayer16 =
      "acc" ++ "const unsigned short " ++ sanitize objLayer16.name ++ "[" ++ toString 256
        ++ "] __attribute__((aligned(4))) =\n" ++ "\x7b\n" ∧
    hasSubstr (exceptHdr (affineWrite objMap16 "map"))
      "extern const unsigned short Objects[256];" = true ∧
    hasSubstr (exceptSrc (affineWrite objMap16 "map")) "\x7d" = false :=
  affine_nontile_unclosed 16 16 256 "acc" objLayer16 rfl

/-! C7: the regular close step on non-tile layers. -/

/-- C7: in regular mode a non-tile layer skips the body loop, yet the
close step still removes exactly 3 characters from the end of the
accumulated text and appends the closing text; the net effect is that the
stripped characters are the opening brace line and the newline after "=",
leaving the accumulator itself intact. -/
theorem regular_nontile_close (acc : String) (len : Nat) (l : Layer)
    (h : l.isTileLayer = false) :
    regularLayerStep len acc l =
      strDropRight (acc ++ regularArrayOpenString len l) 3 ++ "\n\x7d;\n\n" ∧
    regularLayerStep len acc l =
      acc ++ ("const unsigned short " ++ sanitize l.name ++ "[" ++ toString len
        ++ "] __attribute__((aligned(4))) =") ++ "\n\x7d;\n\n" := by
  have h1 : regularLayerStep len acc l =
      strDropRight (acc ++ regularArrayOpenString len l) 3 ++ "\n\x7d;\n\n" := by
    unfold regularLayerStep
    rw [h]
    simp
  refine ⟨h1, ?_⟩
  rw [h1]
  have hopen : regularArrayOpenString len l =
      ("const unsigned short " ++ sanitize l.name ++ "[" ++ toString len
        ++ "] __attribute__((aligned(4))) =") ++ "\n\x7b\n" := by
    unfold regularArrayOpenString
    rw [String.append_assoc _ "] __attribute__((aligned(4))) =\n" "\x7b\n"]
    rw [show ("] __attribute__((aligned(4))) =\n" ++ "\x7b\n" : String)
      = "] __attribute__((aligned(4))) =" ++ "\n\x7b\n" from rfl]
    simp [String.append_assoc]
  rw [hopen]
  rw [show acc ++ (("const unsigned short " ++ sanitize l.name ++ "[" ++ toString len
      ++ "] __attribute__((aligned(4))) =") ++ "\n\x7b\n")
    = (acc ++ ("const unsigned short " ++ sanitize l.name ++ "[" ++ toString len
      ++ "] __attribute__((aligned(4))) =")) ++ "\n\x7b\n" from
    (String.append_assoc _ _ _).symm]
  rw [strDropRight_append _ "\n\x7b\n" 3 (by decide)]
  rw [show strDropRight "\n\x7b\n" 3 = "" from rfl]
  rw [String.append_empty]

/-- Witness for C7 at a concrete accumulator and non-tile layer. -/
theorem regular_nontile_close_witness :
    regularLayerStep 256 "previous text" objLayer16 =
      strDropRight ("previous text" ++ regularArrayOpenString 256 objLayer16) 3 ++ "\n\x7d;\n\n" ∧
    regularLayerStep 256 "previous text" objLayer16 =
      "previous text" ++ ("const unsigned short " ++ sanitize objLayer16.name ++ "["
        ++ toString 256 ++ "] __attribute__((aligned(4))) =") ++ "\n\x7d;\n\n" :=
  regular_nontile_close "previous text" 256 objLayer16 rfl

/-! C2: flip-bit packing. -/

/-- Oring a number with a power of two above all its bits adds it. -/
theorem lor_two_pow_of_lt {a k : Nat} (h : a < 2 ^ k) : a ||| 2 ^ k = a + 2 ^ k := by
  induction k generalizing a with
  | zero =>
    have ha : a = 0 := by
      have h1 : a < 1 := by simpa using h
      omega
    subst ha
    decide
  | succ k ih =>
    have hdiv : a >>> 1 = a / 2 := Nat.shiftRight_one a
    have hq : a / 2 < 2 ^ k := by
      have h2 : a < 2 ^ k * 2 := by rw [← Nat.pow_succ]; exact h
      omega
    have hp : (2 ^ (k + 1) : Nat) = Nat.bit false (2 ^ k) := by
      simp [Nat.bit, Nat.pow_succ]
      ring
    have key : a ||| 2 ^ (k + 1) = Nat.bit (a.testBit 0) (a >>> 1 + 2 ^ k) := by
      conv_lhs => rw [← Nat.bit_testBit_zero_shiftRight_one a]
      rw [hp, Nat.lor_bit, Bool.or_false, ih (by rw [hdiv]; exact hq)]
    rw [key, hdiv]
    have hps : (2 : Nat) ^ (k + 1) = 2 ^ k * 2 := Nat.pow_succ 2 k
    rw [hps]
    cases hb : a.testBit 0 with
    | false =>
      have hmod : a % 2 = 0 := by
        rw [Nat.testBit_to_div_mod] at hb
        simp at hb
        omega
      simp only [Nat.bit, Bool.cond_false]
      omega
    | true =>
      have hmod : a % 2 = 1 := by
        rw [Nat.testBit_to_div_mod] at hb
        simp at hb
        omega
      simp only [Nat.bit, Bool.cond_true]
      omega

/-- Oring a number below 1024 with bit 10 adds 1024. -/
theorem nat_lor_1024 (a : Nat) (h : a < 1024) : a ||| 1024 = a + 1024 := by
  rw [show (1024 : Nat) = 2 ^ 10 from rfl]
  exact lor_two_pow_of_lt (by omega)

/-- Oring a number below 2048 with bit 11 adds 2048. -/
theorem nat_lor_2048 (a : Nat) (h : a < 2048) : a ||| 2048 = a + 2048 := by
  rw [show (2048 : Nat) = 2 ^ 11 from rfl]
  exact lor_two_pow_of_lt (by omega)

/-- ToInt32 is the identity on naturals below 2^31. -/
theorem jsToInt32_cast (m : Nat) (h : m < 2147483648) :
    jsToInt32 (m : Int) = (m : Int) := by
  unfold jsToInt32
  rw [Int.emod_eq_of_lt (by omega) (by omega)]
  rw [if_pos (by omega)]

/-- JavaScript bitwise or agrees with natural-number or below 2^31. -/
theorem jsBitOr_cast (a b : Nat) (ha : a < 2147483648) (hb : b < 2147483648)
    (hor : a ||| b < 2147483648) :
    jsBitOr (a : Int) (b : Int) = ((a ||| b : Nat) : Int) := by
  unfold jsBitOr
  rw [jsToInt32_cast a ha, jsToInt32_cast b hb]
  rw [show ((a : Int) % 4294967296) = (a : Int) from Int.emod_eq_of_lt (by omega) (by omega)]
  rw [show ((b : Int) % 4294967296) = (b : Int) from Int.emod_eq_of_lt (by omega) (by omega)]
  simp only [Int.ofNat_eq_coe, Int.toNat_ofNat]
  exact jsToInt32_cast _ hor

/-- C2: for a non-blank in-range tile id (the data model reserves bits 10
and 11, so ids fit in the low 10 bits), the emitted value is the id plus
1024 when flipped horizontally and plus 2048 when flipped vertically —
equivalently, bit 10 is set iff flippedHorizontally and bit 11 iff
flippedVertically — and in particular id 5 with only horizontal flip is
emitted as "0x0405" and with both flips as "0x0C05". -/
theorem regular_flip_bit_packing (t : Nat) (fh fv : Bool) (ht : t < 1024) :
    cellValue ⟨.num (t : Int), fh, fv⟩ =
      (((t + (if fh then 1024 else 0)) + (if fv then 2048 else 0) : Nat) : Int) ∧
    (cellValue ⟨.num (t : Int), fh, fv⟩).toNat.testBit 10 = fh ∧
    (cellValue ⟨.num (t : Int), fh, fv⟩).toNat.testBit 11 = fv ∧
    cellEntryString ⟨.num (t : Int), fh, fv⟩ =
      decimalToHex (((t + (if fh then 1024 else 0)) + (if fv then 2048 else 0) : Nat) : Int) 4
        ++ ", " ∧
    cellEntryString ⟨.num 5, true, false⟩ = "0x0405, " ∧
    cellEntryString ⟨.num 5, true, true⟩ = "0x0C05, " := by
  have h1024 : (1024 : Int) = ((1024 : Nat) : Int) := rfl
  have h2048 : (2048 : Int) = ((2048 : Nat) : Int) := rfl
  have hval : cellValue ⟨.num (t : Int), fh, fv⟩ =
      (((t + (if fh then 1024 else 0)) + (if fv then 2048 else 0) : Nat) : Int) := by
    unfold cellValue packTileId tileIdToNumber
    cases fh <;> cases fv <;>
      simp only [Bool.false_eq_true, if_true, if_false, ite_true, ite_false]
    · simp
    · rw [h2048, jsBitOr_cast t 2048 (by omega) (by omega)
        (by rw [nat_lor_2048 t (by omega)]; omega)]
      rw [nat_lor_2048 t (by omega)]
    · rw [h1024, jsBitOr_cast t 1024 (by omega) (by omega)
        (by rw [nat_lor_1024 t ht]; omega)]
      rw [nat_lor_1024 t ht]
    · rw [h1024, jsBitOr_cast t 1024 (by omega) (by omega)
        (by rw [nat_lor_1024 t ht]; omega)]
      rw [nat_lor_1024 t ht]
      rw [h2048, jsBitOr_cast (t + 1024) 2048 (by omega) (by omega)
        (by rw [nat_lor_2048 (t + 1024) (by omega)]; omega)]
      rw [nat_lor_2048 (t + 1024) (by omega)]
  refine ⟨hval, ?_, ?_, ?_, by decide, by decide⟩
  · rw [hval, Int.toNat_ofNat, Nat.testBit_to_div_mod]
    cases fh <;> cases fv <;> simp <;> omega
  · rw [hval, Int.toNat_ofNat, Nat.testBit_to_div_mod]
    cases fh <;> cases fv <;> simp <;> omega
  · have hne : jsEqNegOne (TileIdVal.num (t : Int)) = false := by
      simp only [jsEqNegOne, beq_eq_false_iff_ne, ne_eq]
      omega
    simp [cellEntryString, hne, hval]

/-- Witness for C2 at tile id 5 with a horizontal flip. -/
theorem regular_flip_bit_packing_witness :
    cellValue ⟨.num ((5 : Nat) : Int), true, false⟩ =
      (((5 + (if true then 1024 else 0)) + (if false then 2048 else 0) : Nat) : Int) ∧
    (cellValue ⟨.num ((5 : Nat) : Int), true, false⟩).toNat.testBit 10 = true ∧
    (cellValue ⟨.num ((5 : Nat) : Int), true, false⟩).toNat.testBit 11 = false ∧
    cellEntryString ⟨.num ((5 : Nat) : Int), true, false⟩ =
      decimalToHex (((5 + (if true then 1024 else 0)) + (if false then 2048 else 0) : Nat) : Int) 4
        ++ ", " ∧
    cellEntryString ⟨.num 5, true, false⟩ = "0x0405, " ∧
    cellEntryString ⟨.num 5, true, true⟩ = "0x0C05, " :=
  regular_flip_bit_packing 5 true false (by decide)

/-! C1: screenblock-major ordering of the emitted entries. -/

/-- Length of a range concatenation with uniform piece length. -/
theorem flatRange_length {α : Type} (f : Nat → List α) (len n : Nat)
    (h : ∀ i, i < n → (f i).length = len) : (flatRange f n).length = n * len := by
  induction n with
  | zero => simp [flatRange]
  | succ m ih =>
    show (flatRange f m ++ f m).length = (m + 1) * len
    rw [List.length_append, ih (fun i hi => h i (Nat.lt_succ_of_lt hi)),
      h m (Nat.lt_succ_self m)]
    ring

/-- Indexing into a range concatenation with uniform piece length. -/
theorem flatRange_getElem {α : Type} (f : Nat → List α) (len n i r : Nat)
    (h : ∀ t, t < n → (f t).length = len) (hi : i < n) (hr : r < len) :
    (flatRange f n)[i * len + r]? = (f i)[r]? := by
  induction n with
  | zero => exact absurd hi (Nat.not_lt_zero i)
  | succ m ih =>
    have h' : ∀ t, t < m → (f t).length = len := fun t ht => h t (Nat.lt_succ_of_lt ht)
    have hL : (flatRange f m).length = m * len := flatRange_length f len m h'
    show (flatRange f m ++ f m)[i * len + r]? = (f i)[r]?
    by_cases him : i < m
    · have hidx : i * len + r < (flatRange f m).length := by
        rw [hL]
        have h1 : i * len + r < (i + 1) * len := by
          have : (i + 1) * len = i * len + len := by ring
          omega
        have h2 : (i + 1) * len ≤ m * len := Nat.mul_le_mul_right len him
        omega
      rw [List.getElem?_append_left hidx]
      exact ih h' him
    · have him' : i = m := by omega
      subst him'
      have hge : (flatRange f i).length ≤ i * len + r := by rw [hL]; omega
      rw [List.getElem?_append_right hge, hL]
      have : i * len + r - i * len = r := by omega
      rw [this]

/-- Indexing a concatenation of singleton pieces picks out the piece. -/
theorem flatRange_singleton_getElem {α : Type} (g : Nat → α) (n i : Nat) (hi : i < n) :
    (flatRange (fun x => [g x]) n)[i]? = some (g i) := by
  have h := flatRange_getElem (fun x => [g x]) 1 n i 0 (fun _ _ => rfl) hi (by omega)
  simpa using h

/-- C1: for a tile layer of a regular-mode map whose width and height are
positive multiples of 32, the emitted entry sequence has exactly
width*height entries, and the entry of the cell at absolute coordinate
(x + 32*k, y + 32*j) sits at flat index (j*(width/32) + k)*1024 + y*32 + x:
screenblock-major, then row-major inside each 32x32 screenblock. -/
theorem regular_screenblock_order (l : Layer) (cX cY j k y x : Nat)
    (hT : l.isTileLayer = true)
    (hW : l.width = 32 * cX) (hH : l.height = 32 * cY)
    (hj : j < cY) (hk : k < cX) (hy : y < 32) (hx : x < 32) :
    (regularLayerEntries l).length = l.width * l.height ∧
    (regularLayerEntries l)[(j * cX + k) * 1024 + y * 32 + x]? =
      some (cellEntryString (l.cellAt (x + 32 * k) (y + 32 * j))) := by
  have hcX : l.width / 32 = cX := by rw [hW]; omega
  have hcY : l.height / 32 = cY := by rw [hH]; omega
  unfold regularLayerEntries
  rw [hcX, hcY]
  have hrow : ∀ (g : Nat → String) (yy : Nat), yy < 32 →
      (flatRange (fun xx => [g xx]) 32).length = 32 := by
    intro g yy _
    exact flatRange_length _ 1 32 (fun _ _ => rfl)
  have hrowlen : ∀ (g : Nat → String),
      (flatRange (fun xx => [g xx]) 32).length = 32 :=
    fun g => flatRange_length _ 1 32 (fun _ _ => rfl)
  have hblocklen : ∀ jj kk,
      (flatRange (fun yy =>
        flatRange (fun xx => [cellEntryString (l.cellAt (xx + 32 * kk) (yy + 32 * jj))]) 32)
        32).length = 1024 :=
    fun jj kk => flatRange_length _ 32 32 (fun _ _ => hrowlen _)
  have hrowblocklen : ∀ jj,
      (flatRange (fun kk =>
        flatRange (fun yy =>
          flatRange (fun xx => [cellEntryString (l.cellAt (xx + 32 * kk) (yy + 32 * jj))]) 32)
          32) cX).length = cX * 1024 :=
    fun jj => flatRange_length _ 1024 cX (fun kk _ => hblocklen jj kk)
  constructor
  · rw [flatRange_length _ (cX * 1024) cY (fun jj _ => hrowblocklen jj), hW, hH]
    ring
  · have hidx : (j * cX + k) * 1024 + y * 32 + x
        = j * (cX * 1024) + (k * 1024 + (y * 32 + x)) := by ring
    rw [hidx]
    rw [flatRange_getElem _ (cX * 1024) cY j (k * 1024 + (y * 32 + x))
      (fun jj _ => hrowblocklen jj) hj (by
        have h1 : (k + 1) * 1024 ≤ cX * 1024 := Nat.mul_le_mul_right 1024 hk
        have h2 : (k + 1) * 1024 = k * 1024 + 1024 := by ring
        omega)]
    rw [flatRange_getElem _ 1024 cX k (y * 32 + x)
      (fun kk _ => hblocklen j kk) hk (by
        have h1 : (y + 1) * 32 ≤ 1024 := by omega
        have h2 : (y + 1) * 32 = y * 32 + 32 := by ring
        omega)]
    rw [flatRange_getElem _ 32 32 y x (fun _ _ => hrowlen _) hy hx]
    exact flatRange_singleton_getElem _ 32 x hx

/-- Witness for C1 on the concrete 32x32 sequential layer. -/
theorem regular_screenblock_order_witness :
    (regularLayerEntries seqLayer32).length = seqLayer32.width * seqLayer32.height ∧
    (regularLayerEntries seqLayer32)[(0 * 1 + 0) * 1024 + 0 * 32 + 1]? =
      some (cellEntryString (seqLayer32.cellAt (1 + 32 * 0) (0 + 32 * 0))) :=
  regular_screenblock_order seqLayer32 1 1 0 0 0 1 rfl rfl rfl
    (by omega) (by omega) (by omega) (by omega)

/-! C8: the 32x32 sequential round trip. -/

/-- Boolean list equality reflects propositional equality. -/
theorem natListEq_iff (as bs : List Nat) : natListEq as bs = true ↔ as = bs := by
  induction as generalizing bs with
  | nil => cases bs <;> simp [natListEq]
  | cons a as ih =>
    cases bs with
    | nil => simp [natListEq]
    | cons b bs => simp [natListEq, ih]


/-! C8 groundwork: hexadecimal digits round-trip. -/

/-- Digit characters of values below 16 uppercase to hex-set members and
decode to their value. -/
theorem digitChar_up_mem (d : Nat) (h : d < 16) :
    Char.toUpper (Nat.digitChar d) ∈ hexDigitSet ∧
    hexVal (Char.toUpper (Nat.digitChar d)) = some d := by
  interval_cases d <;> exact ⟨by decide, by decide⟩

/-- Base-16 `Nat.toDigitsCore` with enough fuel produces the reference
digits, prepended to the accumulator. -/
theorem toDigitsCore_eq_hexDigitsM (fuel : Nat) :
    ∀ n ds, n < fuel → Nat.toDigitsCore 16 fuel n ds = hexDigitsM n ++ ds := by
  induction fuel with
  | zero => intro n ds h; omega
  | succ f ih =>
    intro n ds h
    rw [hexDigitsM]
    show (let d := Nat.digitChar (n % 16); let n' := n / 16;
      if n' = 0 then d :: ds else Nat.toDigitsCore 16 f n' (d :: ds)) = _
    by_cases h0 : n / 16 = 0
    · simp [h0]
    · simp only [h0, if_false]
      rw [ih (n / 16) _ (by omega)]
      simp

/-- `Nat.toDigits` base 16 equals the reference digit list. -/
theorem toDigits_eq_hexDigitsM (n : Nat) : Nat.toDigits 16 n = hexDigitsM n := by
  show Nat.toDigitsCore 16 (n + 1) n [] = _
  rw [toDigitsCore_eq_hexDigitsM (n + 1) n [] (by omega)]
  simp

/-- Every uppercase hex digit of a number is one of the sixteen digit
characters. -/
theorem upHexDigits_subset (v : Nat) : ∀ c ∈ upHexDigits v, c ∈ hexDigitSet := by
  induction v using Nat.strong_induction_on with
  | _ v ih =>
    unfold upHexDigits
    rw [hexDigitsM]
    by_cases h0 : v / 16 = 0
    · simp only [h0, if_true]
      intro c hc
      simp at hc
      subst hc
      exact (digitChar_up_mem (v % 16) (by omega)).1
    · simp only [h0, if_false, List.map_append, List.mem_append]
      intro c hc
      rcases hc with h1 | h2
      · exact ih (v / 16) (by omega) c h1
      · simp at h2
        subst h2
        exact (digitChar_up_mem (v % 16) (by omega)).1

/-- Hex-set members have a hex value. -/
theorem hexDigitSet_isSome : ∀ c ∈ hexDigitSet, (hexVal c).isSome := by decide

/-- Reading hex digits distributes over append when the first part is all
digits. -/
theorem readHexNum_append (A B : List Char)
    (h : ∀ c ∈ A, (hexVal c).isSome) :
    ∀ acc, readHexNum (A ++ B) acc = readHexNum B (readHexNum A acc) := by
  induction A with
  | nil => intro acc; rfl
  | cons c A ih =>
    intro acc
    have hc := h c (by simp)
    rcases ho : hexVal c with _ | v
    · rw [ho] at hc; simp at hc
    · show readHexNum (c :: (A ++ B)) acc = readHexNum B (readHexNum (c :: A) acc)
      simp only [readHexNum, ho]
      exact ih (fun d hd => h d (by simp [hd])) (acc * 16 + v)

/-- Reading the uppercase digits of a number from accumulator 0 recovers
the number. -/
theorem readHexNum_upHexDigits (v : Nat) : readHexNum (upHexDigits v) 0 = v := by
  induction v using Nat.strong_induction_on with
  | _ v ih =>
    unfold upHexDigits
    rw [hexDigitsM]
    by_cases h0 : v / 16 = 0
    · simp only [h0, if_true, List.map_cons, List.map_nil]
      have hd := (digitChar_up_mem (v % 16) (by omega)).2
      simp [readHexNum, hd]
      omega
    · simp only [h0, if_false, List.map_append, List.map_cons, List.map_nil]
      have hfold : List.map Char.toUpper (hexDigitsM (v / 16)) = upHexDigits (v / 16) := rfl
      rw [hfold]
      rw [readHexNum_append _ _ (fun c hc =>
        hexDigitSet_isSome c (upHexDigits_subset (v / 16) c hc)) 0]
      have hv : readHexNum (upHexDigits (v / 16)) 0 = v / 16 := ih (v / 16) (by omega)
      rw [hv]
      have hd := (digitChar_up_mem (v % 16) (by omega)).2
      simp [readHexNum, hd]
      omega

/-- Leading zeros do not change the value read from accumulator 0. -/
theorem readHexNum_replicate_zero (k : Nat) (B : List Char) :
    readHexNum (List.replicate k '0' ++ B) 0 = readHexNum B 0 := by
  induction k with
  | zero => rfl
  | succ m ih =>
    show readHexNum ('0' :: (List.replicate m '0' ++ B)) 0 = _
    simp only [readHexNum, hexVal]
    norm_num
    exact ih

/-- Reading the padded digits of a number recovers the number. -/
theorem readHexNum_padDigits (v : Nat) : readHexNum (padDigits v) 0 = v := by
  unfold padDigits padStartChars
  rw [readHexNum_replicate_zero]
  exact readHexNum_upHexDigits v

/-- Decoding an emitted entry value recovers the number. -/
theorem decodeTok_entryChars (v : Nat) : decodeTok (entryChars v) = some v := by
  show some (readHexNum (padDigits v) 0) = some v
  rw [readHexNum_padDigits]

/-! C8 groundwork: the comma splitter as a state machine. -/

/-- Processing a comma-free segment accumulates it (reversed) onto the
current token. -/
theorem splitCommaAux_commaFree (cs : List Char)
    (h : ∀ c ∈ cs, ¬ c = ',') :
    ∀ rest cur acc, splitCommaAux (cs ++ rest) cur acc
      = splitCommaAux rest (cs.reverse ++ cur) acc := by
  induction cs with
  | nil => intro rest cur acc; rfl
  | cons c cs ih =>
    intro rest cur acc
    show splitCommaAux (c :: (cs ++ rest)) cur acc = _
    simp only [splitCommaAux]
    rw [if_neg (by simpa using h c (by simp))]
    rw [ih (fun d hd => h d (by simp [hd])) rest (c :: cur) acc]
    simp

/-- A comma emits the pending token and resets the current token. -/
theorem splitCommaAux_comma (rest : List Char) (cur : List Char) (acc : List (List Char)) :
    splitCommaAux (',' :: rest) cur acc = splitCommaAux rest [] (cur.reverse :: acc) := by
  simp [splitCommaAux]

/-- Terminal comma-free text closes the final token. -/
theorem splitCommaAux_final (cs : List Char) (h : ∀ c ∈ cs, ¬ c = ',')
    (cur : List Char) (acc : List (List Char)) :
    splitCommaAux cs cur acc = ((cs.reverse ++ cur).reverse :: acc).reverse := by
  have hstep := splitCommaAux_commaFree cs h [] cur acc
  rw [List.append_nil] at hstep
  rw [hstep]
  rfl

/-- Up to a closing brace, the extractor copies brace-free text. -/
theorem takeToCloseAux_noClose (cs : List Char) (h : ∀ c ∈ cs, ¬ c = '\x7d') :
    ∀ rest acc, takeToCloseAux (cs ++ '\x7d' :: rest) acc = acc.reverse ++ cs := by
  induction cs with
  | nil =>
    intro rest acc
    show takeToCloseAux ('\x7d' :: rest) acc = _
    simp [takeToCloseAux]
  | cons c cs ih =>
    intro rest acc
    show takeToCloseAux (c :: (cs ++ '\x7d' :: rest)) acc = _
    simp only [takeToCloseAux]
    rw [if_neg (by simpa using h c (by simp))]
    rw [ih (fun d hd => h d (by simp [hd])) rest (c :: acc)]
    simp

/-- The header skipper stops at the first opening brace. -/
theorem dropWhile_noBrace (H : List Char) (h : ∀ c ∈ H, ¬ c = '\x7b') :
    ∀ R, (H ++ '\x7b' :: R).dropWhile (fun c => c != '\x7b') = '\x7b' :: R := by
  induction H with
  | nil =>
    intro R
    simp [List.dropWhile]
  | cons c H ih =>
    intro R
    show List.dropWhile _ (c :: (H ++ '\x7b' :: R)) = _
    rw [List.dropWhile_cons]
    rw [if_pos (by simpa using h c (by simp))]
    exact ih (fun d hd => h d (by simp [hd])) R

/-! C8 groundwork: chunk sequences split into their tokens and decode to
their values. -/

/-- Entry characters contain no comma. -/
theorem entryChars_commaFree (v : Nat) : ∀ c ∈ entryChars v, ¬ c = ',' := by
  intro c hc
  unfold entryChars padDigits padStartChars at hc
  simp at hc
  rcases hc with h0 | h0 | ⟨-, h0⟩ | hhex
  · subst h0; decide
  · subst h0; decide
  · subst h0; decide
  · have hset : ∀ d ∈ hexDigitSet, ¬ d = ',' := by decide
    exact hset c (upHexDigits_subset v c hhex)

/-- Entry characters contain no closing brace. -/
theorem entryChars_braceFree (v : Nat) : ∀ c ∈ entryChars v, ¬ c = '\x7d' := by
  intro c hc
  unfold entryChars padDigits padStartChars at hc
  simp at hc
  rcases hc with h0 | h0 | ⟨-, h0⟩ | hhex
  · subst h0; decide
  · subst h0; decide
  · subst h0; decide
  · have hset : ∀ d ∈ hexDigitSet, ¬ d = '\x7d' := by decide
    exact hset c (upHexDigits_subset v c hhex)

/-- Splitting a chunk sequence followed by a remainder: every chunk
contributes one token. -/
theorem splitCommaAux_chunks (L : List (List Char × Nat))
    (hw : ∀ p ∈ L, ∀ c ∈ p.1, ¬ c = ',') :
    ∀ post acc, splitCommaAux (chunksText L ++ post) [] acc
      = splitCommaAux post [] ((tokensOf L).reverse ++ acc) := by
  induction L with
  | nil => intro post acc; simp [chunksText, tokensOf]
  | cons p L ih =>
    intro post acc
    obtain ⟨w, v⟩ := p
    show splitCommaAux ((w ++ entryChars v ++ ',' :: chunksText L) ++ post) [] acc = _
    rw [show (w ++ entryChars v ++ ',' :: chunksText L) ++ post
      = w ++ (entryChars v ++ (',' :: (chunksText L ++ post))) by simp]
    rw [splitCommaAux_commaFree w (fun c hc => hw (w, v) (by simp) c hc) _ [] acc]
    rw [splitCommaAux_commaFree (entryChars v) (entryChars_commaFree v) _ _ acc]
    rw [splitCommaAux_comma]
    rw [ih (fun q hq => hw q (by simp [hq]))]
    simp [tokensOf]

/-- Decoding the tokens of a chunk sequence yields the chunk values in
order, ahead of whatever the remaining tokens decode to. -/
theorem decodeToksAux_chunks (L : List (List Char × Nat))
    (hd : ∀ p ∈ L, decodeTok (p.1 ++ entryChars p.2) = some p.2) :
    ∀ ts acc, decodeToksAux (tokensOf L ++ ts) acc
      = decodeToksAux ts ((L.map Prod.snd).reverse ++ acc) := by
  induction L with
  | nil => intro ts acc; simp [tokensOf]
  | cons p L ih =>
    intro ts acc
    obtain ⟨w, v⟩ := p
    have hdv : decodeTok (w ++ entryChars v) = some v := hd (w, v) (by simp)
    show decodeToksAux ((w ++ entryChars v) :: (tokensOf L ++ ts)) acc = _
    rw [show decodeToksAux ((w ++ entryChars v) :: (tokensOf L ++ ts)) acc
      = (match decodeTok (w ++ entryChars v) with
        | some x => decodeToksAux (tokensOf L ++ ts) (x :: acc)
        | none => decodeToksAux (tokensOf L ++ ts) acc) from rfl]
    rw [hdv]
    show decodeToksAux (tokensOf L ++ ts) (v :: acc) = _
    rw [ih (fun q hq => hd q (by simp [hq]))]
    simp

/-- Decoding a token made of same-row filler and an entry. -/
theorem decodeTok_wSpc (v : Nat) : decodeTok (wSpc ++ entryChars v) = some v := by
  have hstep : decodeTok (wSpc ++ entryChars v) = decodeTok (entryChars v) := rfl
  rw [hstep]
  exact decodeTok_entryChars v

/-- Decoding a token made of row-break filler and an entry. -/
theorem decodeTok_wRow (v : Nat) : decodeTok (wRow ++ entryChars v) = some v := by
  have hstep : decodeTok (wRow ++ entryChars v) = decodeTok (entryChars v) := rfl
  rw [hstep]
  exact decodeTok_entryChars v

/-- Decoding the first token, which carries the screenblock comment. -/
theorem decodeTok_wPre (v : Nat) : decodeTok (wPre ++ entryChars v) = some v := by
  have hstep : decodeTok (wPre ++ entryChars v) = decodeTok (entryChars v) := rfl
  rw [hstep]
  exact decodeTok_entryChars v

/-! C8 groundwork: the scenario chunk sequence carries the values
0..1023. -/

/-- Pointwise-equal functions concatenate equally. -/
theorem catN_congr {α : Type} (f g : Nat → List α) (n : Nat)
    (h : ∀ i, f i = g i) : catN f n = catN g n := by
  induction n generalizing f g with
  | zero => rfl
  | succ m ih =>
    show f 0 ++ catN (fun i => f (i + 1)) m = g 0 ++ catN (fun i => g (i + 1)) m
    rw [h 0, ih _ _ (fun i => h (i + 1))]

/-- Mapping distributes over `catN`. -/
theorem catN_map {α β : Type} (h : α → β) (g : Nat → List α) (n : Nat) :
    (catN g n).map h = catN (fun i => (g i).map h) n := by
  induction n generalizing g with
  | zero => rfl
  | succ m ih =>
    show (g 0 ++ catN (fun i => g (i + 1)) m).map h = _
    rw [List.map_append, ih]
    rfl

/-- Membership in a `catN` comes from one of the pieces. -/
theorem catN_mem {α : Type} (g : Nat → List α) (n : Nat) (a : α)
    (h : a ∈ catN g n) : ∃ i, i < n ∧ a ∈ g i := by
  induction n generalizing g with
  | zero => cases h
  | succ m ih =>
    have h' : a ∈ g 0 ++ catN (fun i => g (i + 1)) m := h
    rw [List.mem_append] at h'
    rcases h' with h0 | h1
    · exact ⟨0, by omega, h0⟩
    · obtain ⟨i, hi, hg⟩ := ih _ h1
      exact ⟨i + 1, by omega, hg⟩

/-- Singleton chunks over consecutive values enumerate a range. -/
theorem catN_singleton_range (m : Nat) : ∀ b, catN (fun x => [b + x]) m = List.range' b m := by
  induction m with
  | zero => intro b; rfl
  | succ k ih =>
    intro b
    show [b + 0] ++ catN (fun i => [b + (i + 1)]) k = List.range' b (k + 1)
    rw [catN_congr (fun i => [b + (i + 1)]) (fun i => [(b + 1) + i]) k
      (fun i => by show [b + (i + 1)] = [(b + 1) + i]; rw [show b + (i + 1) = (b + 1) + i by omega])]
    rw [ih (b + 1)]
    rfl

/-- The values of one row's chunks are 32 consecutive numbers. -/
theorem rowChunks_values (b : Nat) : (rowChunks b).map Prod.snd = List.range' b 32 := by
  show b :: (catN (fun x => [(wSpc, b + 1 + x)]) 31).map Prod.snd = _
  rw [catN_map]
  rw [catN_congr _ (fun x => [(b + 1) + x]) 31
    (fun i => by simp)]
  rw [catN_singleton_range 31 (b + 1)]
  rfl

/-- Thirty-two-value rows over consecutive bases enumerate a range. -/
theorem catN_rows_values (m : Nat) :
    ∀ s, catN (fun y => List.range' (s + 32 * y) 32) m = List.range' s (32 * m) := by
  induction m with
  | zero => intro s; rfl
  | succ k ih =>
    intro s
    show List.range' (s + 32 * 0) 32 ++ catN (fun i => List.range' (s + 32 * (i + 1)) 32) k = _
    rw [show s + 32 * 0 = s by omega]
    rw [catN_congr _ (fun i => List.range' ((s + 32) + 32 * i) 32) k
      (fun i => by rw [show s + 32 * (i + 1) = (s + 32) + 32 * i by ring])]
    rw [ih (s + 32)]
    have happ := List.range'_append s 32 (32 * k) 1
    simp only [Nat.one_mul] at happ
    rw [happ]
    congr 1

/-- The scenario chunk sequence carries exactly the values 0..1023. -/
theorem seqChunksL_values : seqChunksL.map Prod.snd = List.range 1024 := by
  unfold seqChunksL
  rw [List.map_append]
  have h1 : ((wPre, 0) :: catN (fun x => [(wSpc, 1 + x)]) 31).map Prod.snd
      = List.range' 0 32 := by
    show (0 : Nat) :: (catN (fun x => [(wSpc, 1 + x)]) 31).map Prod.snd = _
    rw [catN_map]
    rw [catN_congr _ (fun x => [1 + x]) 31 (fun i => by simp)]
    rw [catN_singleton_range 31 1]
    rfl
  have h2 : (catN (fun y => rowChunks (32 * (1 + y))) 31).map Prod.snd
      = List.range' 32 992 := by
    rw [catN_map]
    rw [catN_congr _ (fun y => List.range' (32 + 32 * y) 32) 31
      (fun i => by rw [rowChunks_values]; congr 1; ring)]
    have := catN_rows_values 31 32
    rw [this]
  rw [h1, h2]
  have happ := List.range'_append 0 32 992 1
  simp only [Nat.one_mul, Nat.zero_add] at happ
  rw [happ]
  rw [List.range_eq_range']

/-! C8 groundwork: properties of the scenario chunks. -/

/-- Every chunk filler of the scenario is one of the three filler
shapes. -/
theorem seqChunksL_w (p : List Char × Nat) (hp : p ∈ seqChunksL) :
    p.1 = wPre ∨ p.1 = wSpc ∨ p.1 = wRow := by
  unfold seqChunksL at hp
  rw [List.mem_append] at hp
  rcases hp with h | h
  · rw [List.mem_cons] at h
    rcases h with h | h
    · rw [h]
      simp
    · obtain ⟨i, _, hi⟩ := catN_mem _ _ _ h
      simp at hi
      rw [hi]
      simp
  · obtain ⟨y, _, hy⟩ := catN_mem _ _ _ h
    unfold rowChunks at hy
    rw [List.mem_cons] at hy
    rcases hy with h | h
    · rw [h]
      simp
    · obtain ⟨x, _, hx⟩ := catN_mem _ _ _ h
      simp at hx
      rw [hx]
      simp

/-- No scenario chunk filler contains a comma. -/
theorem seqChunksL_commaFree : ∀ p ∈ seqChunksL, ∀ c ∈ p.1, ¬ c = ',' := by
  have hp1 : ∀ d ∈ wPre, ¬ d = ',' := by decide
  have hp2 : ∀ d ∈ wSpc, ¬ d = ',' := by decide
  have hp3 : ∀ d ∈ wRow, ¬ d = ',' := by decide
  intro p hp c hc
  rcases seqChunksL_w p hp with h | h | h <;> rw [h] at hc
  · exact hp1 c hc
  · exact hp2 c hc
  · exact hp3 c hc

/-- No scenario chunk filler contains a closing brace. -/
theorem seqChunksL_braceFree : ∀ p ∈ seqChunksL, ∀ c ∈ p.1, ¬ c = '\x7d' := by
  have hp1 : ∀ d ∈ wPre, ¬ d = '\x7d' := by decide
  have hp2 : ∀ d ∈ wSpc, ¬ d = '\x7d' := by decide
  have hp3 : ∀ d ∈ wRow, ¬ d = '\x7d' := by decide
  intro p hp c hc
  rcases seqChunksL_w p hp with h | h | h <;> rw [h] at hc
  · exact hp1 c hc
  · exact hp2 c hc
  · exact hp3 c hc

/-- Every scenario token decodes to its chunk value. -/
theorem seqChunksL_decode : ∀ p ∈ seqChunksL, decodeTok (p.1 ++ entryChars p.2) = some p.2 := by
  intro p hp
  rcases seqChunksL_w p hp with h | h | h <;> rw [h]
  · exact decodeTok_wPre p.2
  · exact decodeTok_wSpc p.2
  · exact decodeTok_wRow p.2

/-- The body text of a chunk sequence is free of closing braces. -/
theorem chunksText_braceFree (L : List (List Char × Nat))
    (hw : ∀ p ∈ L, ∀ c ∈ p.1, ¬ c = '\x7d') :
    ∀ c ∈ chunksText L, ¬ c = '\x7d' := by
  induction L with
  | nil => intro c hc; cases hc
  | cons p L ih =>
    obtain ⟨w, v⟩ := p
    intro c hc
    have hc' : c ∈ w ++ entryChars v ++ ',' :: chunksText L := hc
    simp only [List.mem_append, List.mem_cons] at hc'
    rcases hc' with (hw' | he) | hcm | hrest
    · exact hw (w, v) (by simp) c hw'
    · exact entryChars_braceFree v c he
    · subst hcm; decide
    · exact ih (fun q hq => hw q (by simp [hq])) c hrest

/-! C8 groundwork: the emitted row text, chunked at character level. -/

/-- The blank-sentinel test is false on nonnegative numeric tile ids. -/
theorem jsEqNegOne_cast (v : Nat) : jsEqNegOne (TileIdVal.num ((v : Nat) : Int)) = false := by
  simp only [jsEqNegOne, beq_eq_false_iff_ne, ne_eq]
  omega

/-- The hex formatter on a cast natural produces the entry characters. -/
theorem decimalToHex_cast (v : Nat) :
    decimalToHex ((v : Nat) : Int) 4 = String.mk (entryChars v) := by
  unfold decimalToHex jsNumToHexChars
  rw [if_neg (by omega)]
  rw [Int.toNat_ofNat]
  rw [toDigits_eq_hexDigitsM]
  show String.mk ("0x".data ++ padStartChars (upHexDigits v) 4 '0') = String.mk (entryChars v)
  rfl

/-- The flip packer is the identity without flips. -/
theorem packTileId_noflip (t : Int) : packTileId t false false = t := rfl

/-- The emitted entry of a sequential cell. -/
theorem cellEntryString_seq (X Y : Nat) :
    cellEntryString (seqLayer32.cellAt X Y) = String.mk (entryChars (Y * 32 + X)) ++ ", " := by
  show cellEntryString ⟨.num ((Y * 32 + X : Nat) : Int), false, false⟩ = _
  unfold cellEntryString
  simp only [jsEqNegOne_cast, Bool.false_eq_true, if_false]
  show decimalToHex (packTileId ((Y * 32 + X : Nat) : Int) false false) 4 ++ ", " = _
  rw [packTileId_noflip]
  rw [decimalToHex_cast]

/-- The character data of a loop-accumulated string is the `catN` of its
pieces' data. -/
theorem strConcatRangeAux_data (f : Nat → String) (n : Nat) :
    ∀ i, (strConcatRangeAux f i n).data = catN (fun j => (f (i + j)).data) n := by
  induction n with
  | zero => intro i; rfl
  | succ m ih =>
    intro i
    show (f i ++ strConcatRangeAux f (i + 1) m).data = _
    rw [String.data_append, ih (i + 1)]
    show (f i).data ++ _ = (f (i + 0)).data ++ catN (fun j => (f (i + (j + 1))).data) m
    rw [show i + 0 = i from rfl]
    congr 1
    exact catN_congr _ _ m (fun j => by rw [show i + 1 + j = i + (j + 1) by omega])

/-- The character data of one emitted row of the scenario. -/
theorem screenblockRowString_seq_data (y : Nat) :
    (screenblockRowString seqLayer32 0 0 y).data
      = "    ".data ++ catN (fun x => entryChars (32 * y + x) ++ [',', ' ']) 32 ++ ['\n'] := by
  unfold screenblockRowString strConcatRange
  rw [String.data_append, String.data_append]
  rw [strConcatRangeAux_data _ 32 0]
  congr 1
  congr 1
  refine catN_congr _ _ 32 (fun j => ?_)
  rw [cellEntryString_seq (0 + j + 32 * 0) (y + 32 * 0)]
  rw [String.data_append]
  rw [show (y + 32 * 0) * 32 + (0 + j + 32 * 0) = 32 * y + j by ring]

/-! C8 groundwork: regrouping the emitted rows into chunks. -/

/-- Chunk text distributes over append of chunk lists. -/
theorem chunksText_append (A B : List (List Char × Nat)) :
    chunksText (A ++ B) = chunksText A ++ chunksText B := by
  induction A with
  | nil => rfl
  | cons p A ih =>
    obtain ⟨w, v⟩ := p
    show w ++ entryChars v ++ ',' :: chunksText (A ++ B) = (w ++ entryChars v ++ ',' :: chunksText A) ++ chunksText B
    rw [ih]
    simp

/-- Chunk text of a `catN` of singleton chunks sharing a filler. -/
theorem chunksText_catN_singleton (w : List Char) (n : Nat) :
    ∀ g : Nat → Nat, chunksText (catN (fun x => [(w, g x)]) n)
      = catN (fun x => w ++ entryChars (g x) ++ [',']) n := by
  induction n with
  | zero => intro g; rfl
  | succ m ih =>
    intro g
    show chunksText ([(w, g 0)] ++ catN (fun i => [(w, g (i + 1))]) m) = _
    rw [chunksText_append, ih (fun i => g (i + 1))]
    show (w ++ entryChars (g 0) ++ [',']) ++ _ = (w ++ entryChars (g 0) ++ [',']) ++ _
    rfl

/-- A row of `", "`-terminated entries regroups as a leading entry and
comma, space-leading chunks, and a dangling space. -/
theorem row_shift (m : Nat) : ∀ b,
    catN (fun x => entryChars (b + x) ++ [',', ' ']) (m + 1)
      = entryChars b ++ [','] ++ catN (fun x => [' '] ++ entryChars (b + 1 + x) ++ [',']) m
        ++ [' '] := by
  induction m with
  | zero =>
    intro b
    show (entryChars (b + 0) ++ [',', ' ']) ++ catN (fun i => entryChars (b + (i + 1)) ++ [',', ' ']) 0
      = entryChars b ++ [','] ++ catN (fun x => [' '] ++ entryChars (b + 1 + x) ++ [',']) 0 ++ [' ']
    rw [show b + 0 = b from rfl]
    rw [show catN (fun i => entryChars (b + (i + 1)) ++ [',', ' ']) 0 = [] from rfl]
    rw [show catN (fun x => [' '] ++ entryChars (b + 1 + x) ++ [',']) 0 = [] from rfl]
    simp
  | succ k ih =>
    intro b
    show (entryChars (b + 0) ++ [',', ' '])
        ++ catN (fun i => entryChars (b + (i + 1)) ++ [',', ' ']) (k + 1) = _
    rw [show b + 0 = b from rfl]
    rw [catN_congr (fun i => entryChars (b + (i + 1)) ++ [',', ' '])
      (fun i => entryChars ((b + 1) + i) ++ [',', ' ']) (k + 1)
      (fun i => by
        show entryChars (b + (i + 1)) ++ [',', ' '] = entryChars ((b + 1) + i) ++ [',', ' ']
        rw [show b + (i + 1) = (b + 1) + i by omega])]
    rw [ih (b + 1)]
    show _ = entryChars b ++ [',']
        ++ (([' '] ++ entryChars (b + 1 + 0) ++ [','])
          ++ catN (fun i => [' '] ++ entryChars (b + 1 + (i + 1)) ++ [',']) k)
        ++ [' ']
    rw [show b + 1 + 0 = b + 1 from rfl]
    rw [catN_congr (fun i => [' '] ++ entryChars (b + 1 + (i + 1)) ++ [','])
      (fun i => [' '] ++ entryChars ((b + 1) + 1 + i) ++ [',']) k
      (fun i => by
        show [' '] ++ entryChars (b + 1 + (i + 1)) ++ [','] = [' '] ++ entryChars ((b + 1) + 1 + i) ++ [',']
        rw [show b + 1 + (i + 1) = (b + 1) + 1 + i by omega])]
    simp

/-- Rows of emitted text telescope into row chunks: the space-newline
boundary carried in front of each row becomes that row's chunk filler. -/
theorem rows_telescope (m : Nat) : ∀ y0,
    [' ', '\n'] ++ catN (fun y => (screenblockRowString seqLayer32 0 0 (y0 + y)).data) m
      = chunksText (catN (fun y => rowChunks (32 * (y0 + y))) m) ++ [' ', '\n'] := by
  induction m with
  | zero =>
    intro y0
    rfl
  | succ k ih =>
    intro y0
    show [' ', '\n'] ++ ((screenblockRowString seqLayer32 0 0 (y0 + 0)).data
        ++ catN (fun i => (screenblockRowString seqLayer32 0 0 (y0 + (i + 1))).data) k)
      = chunksText (rowChunks (32 * (y0 + 0))
          ++ catN (fun i => rowChunks (32 * (y0 + (i + 1)))) k) ++ [' ', '\n']
    rw [show y0 + 0 = y0 from rfl]
    rw [catN_congr (fun i => (screenblockRowString seqLayer32 0 0 (y0 + (i + 1))).data)
      (fun i => (screenblockRowString seqLayer32 0 0 ((y0 + 1) + i)).data) k
      (fun i => by
        show (screenblockRowString seqLayer32 0 0 (y0 + (i + 1))).data
          = (screenblockRowString seqLayer32 0 0 ((y0 + 1) + i)).data
        rw [show y0 + (i + 1) = (y0 + 1) + i by omega])]
    rw [catN_congr (fun i => rowChunks (32 * (y0 + (i + 1))))
      (fun i => rowChunks (32 * ((y0 + 1) + i))) k
      (fun i => by
        show rowChunks (32 * (y0 + (i + 1))) = rowChunks (32 * ((y0 + 1) + i))
        rw [show y0 + (i + 1) = (y0 + 1) + i by omega])]
    rw [screenblockRowString_seq_data y0]
    have hs := row_shift 31 (32 * y0)
    rw [show (31 + 1 : Nat) = 32 from rfl] at hs
    rw [hs]
    rw [chunksText_append]
    rw [show chunksText (rowChunks (32 * y0))
      = wRow ++ entryChars (32 * y0)
          ++ ',' :: chunksText (catN (fun x => [(wSpc, 32 * y0 + 1 + x)]) 31) from rfl]
    rw [chunksText_catN_singleton wSpc 31 (fun x => 32 * y0 + 1 + x)]
    have ih' := ih (y0 + 1)
    rw [show wRow = [' ', '\n'] ++ "    ".data from rfl]
    simp only [wSpc, List.cons_append, List.nil_append, List.append_assoc] at ih' ⊢
    rw [ih']

/-- The emitted body of the scenario layer, with the newline following the
opening brace, is exactly the chunk text followed by the three characters
the close step strips. -/
theorem bodyChunks :
    '\n' :: (regularLayerBody seqLayer32).data
      = chunksText seqChunksL ++ [' ', '\n', '\n'] := by
  rw [show regularLayerBody seqLayer32
    = (screenblockString seqLayer32 0 0 0 ++ "") ++ "" from rfl]
  rw [String.append_empty, String.append_empty]
  rw [show screenblockString seqLayer32 0 0 0
    = ("    // Screeblock " ++ toString (0 : Nat) ++ "\n")
      ++ strConcatRange (fun y => screenblockRowString seqLayer32 0 0 y) 32 ++ "\n" from rfl]
  rw [String.data_append, String.data_append]
  rw [show ("    // Screeblock " ++ toString (0 : Nat) ++ "\n").data
    = "    // Screeblock 0\n".data from rfl]
  rw [show strConcatRange (fun y => screenblockRowString seqLayer32 0 0 y) 32
    = strConcatRangeAux (fun y => screenblockRowString seqLayer32 0 0 y) 0 32 from rfl]
  rw [strConcatRangeAux_data (fun y => screenblockRowString seqLayer32 0 0 y) 32 0]
  rw [show catN (fun j => (screenblockRowString seqLayer32 0 0 (0 + j)).data) 32
    = (screenblockRowString seqLayer32 0 0 (0 + 0)).data
      ++ catN (fun j => (screenblockRowString seqLayer32 0 0 (0 + (j + 1))).data) 31 from rfl]
  rw [show (0 : Nat) + 0 = 0 from rfl]
  rw [catN_congr (fun j => (screenblockRowString seqLayer32 0 0 (0 + (j + 1))).data)
    (fun j => (screenblockRowString seqLayer32 0 0 (1 + j)).data) 31
    (fun i => by
      show (screenblockRowString seqLayer32 0 0 (0 + (i + 1))).data
        = (screenblockRowString seqLayer32 0 0 (1 + i)).data
      rw [show 0 + (i + 1) = 1 + i by omega])]
  rw [screenblockRowString_seq_data 0]
  have hs := row_shift 31 (32 * 0)
  rw [show (31 + 1 : Nat) = 32 from rfl] at hs
  rw [show (32 : Nat) * 0 = 0 from rfl] at hs
  rw [hs]
  have ht := rows_telescope 31 1
  rw [show seqChunksL
    = ((wPre, 0) :: catN (fun x => [(wSpc, 1 + x)]) 31)
      ++ catN (fun y => rowChunks (32 * (1 + y))) 31 from rfl]
  rw [chunksText_append]
  rw [show chunksText ((wPre, 0) :: catN (fun x => [(wSpc, 1 + x)]) 31)
    = wPre ++ entryChars 0 ++ ',' :: chunksText (catN (fun x => [(wSpc, 1 + x)]) 31) from rfl]
  rw [chunksText_catN_singleton wSpc 31 (fun x => 1 + x)]
  rw [show wPre = '\n' :: ("    // Screeblock 0\n".data ++ "    ".data) from rfl]
  rw [catN_congr (fun x => [' '] ++ entryChars (0 + 1 + x) ++ [','])
    (fun x => [' '] ++ entryChars (1 + x) ++ [',']) 31
    (fun i => by
      show [' '] ++ entryChars (0 + 1 + i) ++ [','] = [' '] ++ entryChars (1 + i) ++ [',']
      rw [show 0 + 1 + i = 1 + i by omega])]
  simp only [wSpc, List.cons_append, List.nil_append, List.append_assoc] at ht ⊢
  have ht2 := congrArg (fun l => l ++ (['\n'] : List Char)) ht
  simp only [List.cons_append, List.nil_append, List.append_assoc] at ht2
  rw [ht2]

/-- Dropping a known-length suffix at the character level. -/
theorem strDropRight_data (s : String) (n : Nat) (A B : List Char)
    (hs : s.data = A ++ B) (hb : B.length = n) :
    (strDropRight s n).data = A := by
  show (s.data.reverse.drop n).reverse = A
  rw [hs, List.reverse_append]
  rw [← hb, ← List.length_reverse B]
  rw [List.drop_left]
  rw [List.reverse_reverse]

/-- The character data of the source file of the round-trip scenario:
header text, opening brace, the chunked body, and the close. -/
theorem seq_srcData :
    (exceptSrc (regularWrite seqMap32 "map")).data
      = ("#include \"map.h\"\n\nconst unsigned short layer0[1024] __attribute__((aligned(4))) =\n").data
        ++ '\x7b' :: (chunksText seqChunksL ++ ['\n', '\x7d', ';', '\n']) := by
  have h0 : exceptSrc (regularWrite seqMap32 "map")
      = strDropRight (regularLayerStep 1024 "#include \"map.h\"\n\n" seqLayer32) 1 := rfl
  have h1 : regularLayerStep 1024 "#include \"map.h\"\n\n" seqLayer32
      = strDropRight (("#include \"map.h\"\n\n" ++ regularArrayOpenString 1024 seqLayer32)
          ++ regularLayerBody seqLayer32) 3 ++ "\n\x7d;\n\n" := rfl
  have hs1 : ("#include \"map.h\"\n\n" ++ regularArrayOpenString 1024 seqLayer32).data
      = ("#include \"map.h\"\n\nconst unsigned short layer0[1024] __attribute__((aligned(4))) =\n").data
        ++ ['\x7b', '\n'] := by decide
  have h2 : (("#include \"map.h\"\n\n" ++ regularArrayOpenString 1024 seqLayer32)
      ++ regularLayerBody seqLayer32).data
      = (("#include \"map.h\"\n\nconst unsigned short layer0[1024] __attribute__((aligned(4))) =\n").data
        ++ '\x7b' :: chunksText seqChunksL) ++ [' ', '\n', '\n'] := by
    rw [String.data_append, hs1]
    have hb := bodyChunks
    simp only [List.cons_append, List.nil_append, List.append_assoc] at hb ⊢
    rw [hb]
  have h3 : (strDropRight (("#include \"map.h\"\n\n" ++ regularArrayOpenString 1024 seqLayer32)
      ++ regularLayerBody seqLayer32) 3).data
      = ("#include \"map.h\"\n\nconst unsigned short layer0[1024] __attribute__((aligned(4))) =\n").data
        ++ '\x7b' :: chunksText seqChunksL :=
    strDropRight_data _ 3 _ _ h2 rfl
  have h4 : (strDropRight (("#include \"map.h\"\n\n" ++ regularArrayOpenString 1024 seqLayer32)
        ++ regularLayerBody seqLayer32) 3 ++ "\n\x7d;\n\n").data
      = (("#include \"map.h\"\n\nconst unsigned short layer0[1024] __attribute__((aligned(4))) =\n").data
        ++ '\x7b' :: (chunksText seqChunksL ++ ['\n', '\x7d', ';', '\n'])) ++ ['\n'] := by
    rw [String.data_append, h3]
    rw [show ("\n\x7d;\n\n" : String).data = ['\n', '\x7d', ';', '\n'] ++ ['\n'] from rfl]
    simp only [List.cons_append, List.nil_append, List.append_assoc]
  rw [h0, h1]
  exact strDropRight_data _ 1 _ _ h4 rfl

set_option maxRecDepth 4000 in
/-- C8: exporting the 32x32 single-layer map whose tile ids are 0..1023 in
row-major order, with no flips, in regular mode: the header declares
exactly one array, of length 1024, and splitting the source array body on
commas and decoding each 0x-prefixed hex value reconstructs the sequence
0, 1, ..., 1023 in order. -/
theorem regular_roundtrip_sequence :
    exceptHdr (regularWrite seqMap32 "map") =
      "#ifndef _MAP_H_\n#define _MAP_H_\n\n#define MAP_WIDTH 32\n#define MAP_HEIGHT 32\n"
        ++ "#define MAP_LENGTH 1024\n\n#ifdef __cplusplus\nextern \"C\" \x7b\n#endif\n\n"
        ++ "extern const unsigned short layer0[1024];\n"
        ++ "\n#ifdef __cplusplus\n\x7d\n#endif\n\n#endif\n" ∧
    parseBackNats (exceptSrc (regularWrite seqMap32 "map")) = List.range 1024 := by
  constructor
  · decide
  · unfold parseBackNats arrayBodyChars
    rw [seq_srcData]
    rw [dropWhile_noBrace _ (by decide) _]
    rw [List.drop_one]
    rw [show (('\x7b' :: (chunksText seqChunksL ++ ['\n', '\x7d', ';', '\n'])) : List Char).tail
      = chunksText seqChunksL ++ ['\n', '\x7d', ';', '\n'] from rfl]
    rw [show (chunksText seqChunksL ++ ['\n', '\x7d', ';', '\n'] : List Char)
      = (chunksText seqChunksL ++ ['\n']) ++ '\x7d' :: [';', '\n'] by
        simp only [List.cons_append, List.nil_append, List.append_assoc]]
    rw [takeToCloseAux_noClose _ ?hbrace _ []]
    case hbrace =>
      intro c hc
      rw [List.mem_append] at hc
      rcases hc with hc | hc
      · exact chunksText_braceFree seqChunksL seqChunksL_braceFree c hc
      · simp at hc
        subst hc
        decide
    rw [List.reverse_nil, List.nil_append]
    unfold splitComma
    rw [splitCommaAux_chunks seqChunksL seqChunksL_commaFree ['\n'] []]
    rw [splitCommaAux_final ['\n'] (by decide) [] _]
    show decodeToksAux ((['\n'] :: ((tokensOf seqChunksL).reverse ++ [])).reverse) [] = List.range 1024
    rw [List.append_nil, List.reverse_cons, List.reverse_reverse]
    rw [decodeToksAux_chunks seqChunksL seqChunksL_decode [['\n']] []]
    rw [show decodeToksAux [['\n']] ((seqChunksL.map Prod.snd).reverse ++ [])
      = ((seqChunksL.map Prod.snd).reverse ++ []).reverse from rfl]
    rw [List.append_nil, List.reverse_reverse]
    exact seqChunksL_values

end TiledToGBA
